import Mathlib

/-
  Verification of the sheet/row resolution and mapping layer of the
  Sheetful API (a REST layer over a spreadsheet store).

  The development shallowly embeds the two service implementations:
  the app service (src/app/services/sheets.py, class GoogleSheetsService)
  under the namespace AppService, and the legacy service
  (src/sheets_service.py, class GoogleSheetsService) under the namespace
  LegacyService.  The remote spreadsheet store (the gspread client) is an
  external collaborator; its worksheet operations (get_all_records,
  row_values, update_cell, append_row / append_rows, and the three sheet
  lookups of a document) are modelled from the specification of the
  Record Mapper and Identifier Resolver components:
  a worksheet carries a header row and a list of data rows, records are
  the positional zip of a data row against the headers (missing cells
  become the empty string), and physical coordinates are 1-based with the
  header as row 1.
-/

namespace Sheetful

/-- A cell value as materialized by the remote store: a string or an
integer (the numeric conversion applied by the record reader).  Python's
str() on such a value is `Value.toStr`. -/
inductive Value where
  | str (s : String)
  | int (n : Int)
deriving DecidableEq, Repr

/-- Python str() of a cell value. -/
def Value.toStr : Value → String
  | .str s => s
  | .int n => toString n

/-- A record: one logical data row, an ordered mapping from header name to
cell value (a Python dict in the source; assoc list here, first key wins). -/
abbrev Record := List (String × Value)

/-- A filter set: header name to expected string value
(`options.query : Dict[str, str]` in the source). -/
abbrev Filters := List (String × String)

/-- Python record.get(key, "") as used by the filter loop. -/
def recordGet (r : Record) (k : String) : Value :=
  match r.lookup k with
  | some v => v
  | none => .str ""

/-- A worksheet as seen through the remote store: the header row
(physical row 1, as returned by row_values(1)) and the data rows
(physical rows 2 and onward). -/
structure Worksheet where
  headers : List String
  rows : List (List Value)
deriving DecidableEq, Repr

/-- Pad a list with copies of pad up to length n (no-op when already
long enough). -/
def padTo (l : List α) (n : Nat) (pad : α) : List α :=
  l ++ List.replicate (n - l.length) pad

/-- Set position i, first padding with pad so the position exists. -/
def setPad (l : List α) (i : Nat) (v : α) (pad : α) : List α :=
  (padTo l (i + 1) pad).set i v

/-- One record of get_all_records: zip a raw data row against the headers
positionally; a header beyond the end of the row reads as the empty
string (Record Mapper reading contract). -/
def toRecord (headers : List String) (row : List Value) : Record :=
  headers.zip (padTo row headers.length (.str ""))

/-- worksheet.get_all_records(): the full materialized record list. -/
def getAllRecords (ws : Worksheet) : List Record :=
  ws.rows.map (toRecord ws.headers)

/-- worksheet.row_values(1): the header row. -/
def rowValues1 (ws : Worksheet) : List String :=
  ws.headers

/-- One cell-write instruction: worksheet.update_cell(row, col, value).
The row is an Int because the services compute it as row_id + 2 from a
possibly negative Python int; the column is always the Nat i + 1 for a
0-based header position i. -/
structure CellWrite where
  row : Int
  col : Nat
  value : Value
deriving DecidableEq, Repr

/-- worksheet.update_cell(row, col, value): 1-based physical coordinates;
row 1 is the header row (the written value is stored in its string form,
as row_values returns strings).  Rows past the current extent are
materialized (the sparse-write behavior the spec documents for the remote
store); a nonpositive coordinate is rejected by the remote store, which
the services surface as a generic failure. -/
def Worksheet.updateCell (ws : Worksheet) (row : Int) (col : Nat) (v : Value) :
    Option Worksheet :=
  if row = 1 then
    if 1 ≤ col then
      some { ws with headers := setPad ws.headers (col - 1) v.toStr "" }
    else none
  else if 2 ≤ row then
    if 1 ≤ col then
      let i := (row - 2).toNat
      let rows1 := padTo ws.rows (i + 1) []
      some { ws with rows := rows1.set i (setPad ((rows1[i]?).getD []) (col - 1) v (.str "")) }
    else none
  else none

/-- Apply a sequence of cell writes in order, failing as soon as the
remote store rejects one. -/
def applyWrites (ws : Worksheet) : List CellWrite → Option Worksheet
  | [] => some ws
  | w :: rest =>
    match ws.updateCell w.row w.col w.value with
    | some ws1 => applyWrites ws1 rest
    | none => none

/-- The write instructions emitted by the row-update loop
for i, header in enumerate(headers): if header in data:
update_cell(rowNum, i + 1, data[header]) — starting at 0-based header
position i. -/
def planRowWritesAux (rowNum : Int) (data : Record) : Nat → List String → List CellWrite
  | _, [] => []
  | i, h :: hs =>
    match data.lookup h with
    | some v => ⟨rowNum, i + 1, v⟩ :: planRowWritesAux rowNum data (i + 1) hs
    | none => planRowWritesAux rowNum data (i + 1) hs

/-- The write instructions of a single-row update targeting physical row
rowNum (the body of the update loops in update_row of both services). -/
def planRowWrites (headers : List String) (rowNum : Int) (data : Record) : List CellWrite :=
  planRowWritesAux rowNum data 0 headers

/-- An HTTPException as raised by the services: status code and detail. -/
structure HTTPError where
  status : Nat
  detail : String
deriving DecidableEq, Repr

/-- The RowNotFound error: HTTPException(404, f"Row {row_id} not found"),
identical in both services. -/
def rowNotFoundError (rowId : Int) : HTTPError :=
  ⟨404, "Row " ++ toString rowId ++ " not found"⟩

/-- Python list indexing l[i] (negative indices count from the end; an
out-of-range index raises, modelled as none). -/
def pyIndex (l : List α) (i : Int) : Option α :=
  if 0 ≤ i then l[i.toNat]?
  else if 0 ≤ i + l.length then l[(i + l.length).toNat]?
  else none

/-- One bound of a Python slice l[a:b], clamped to [0, len]. -/
def pySliceBound (len : Nat) (i : Int) : Nat :=
  if i < 0 then (i + len).toNat else min i.toNat len

/-- Python slicing l[a:b]. -/
def pySlice (l : List α) (a b : Int) : List α :=
  (l.take (pySliceBound l.length b)).drop (pySliceBound l.length a)

/-- Strip leading and trailing whitespace (Python int() ignores it). -/
def trimChars (cs : List Char) : List Char :=
  ((cs.dropWhile Char.isWhitespace).reverse.dropWhile Char.isWhitespace).reverse

/-- Decimal digits to a number, accumulating left to right; none on a
non-digit. -/
def digitsToNatAux : List Char → Nat → Option Nat
  | [], acc => some acc
  | c :: cs, acc =>
    if c.isDigit then digitsToNatAux cs (acc * 10 + (c.toNat - 48)) else none

/-- Decimal digits to a number; none when empty or on a non-digit. -/
def digitsToNat : List Char → Option Nat
  | [] => none
  | c :: cs => digitsToNatAux (c :: cs) 0

/-- Python int(s) on a decimal token: optional surrounding whitespace, an
optional sign, then decimal digits; none models the ValueError the
resolver catches.  (Underscore digit grouping is not modelled.) -/
def pyParseInt (s : String) : Option Int :=
  match trimChars s.toList with
  | '-' :: cs => (digitsToNat cs).map fun m => -(m : Int)
  | '+' :: cs => (digitsToNat cs).map fun m => (m : Int)
  | cs => (digitsToNat cs).map fun m => (m : Int)

/-- Options of the row-listing operation (models.SheetGetRowsOptions). -/
structure SheetGetRowsOptions where
  offset : Int := 0
  limit : Int := 100
  query : Option Filters := none

/-- A document as the Identifier Resolver sees it: the three fallible
lookups the gspread Spreadsheet offers — get_worksheet_by_id (numeric id),
get_worksheet (0-based positional index), worksheet (exact title);
none models the not-found exception each raises
(WorksheetNotFound, IndexError, WorksheetNotFound respectively), which
the resolver's except clauses turn into fall-through. -/
structure Document where
  byId : Int → Option Worksheet
  byIndex : Int → Option Worksheet
  byTitle : String → Option Worksheet

/-- The record-matches-filters test of the filter loop: for key, value in
filters.items(): if str(record.get(key, "")) != str(value): no match
(the expected value is already a string, so its str() is itself). -/
def matchesFilters (record : Record) : Filters → Bool
  | [] => true
  | (key, value) :: rest =>
    if (recordGet record key).toStr ≠ value then false
    else matchesFilters record rest

/-- _apply_filters of the app service (the legacy service inlines the
same accumulator loop in get_sheet_rows): keep the records matching
every filter, in order. -/
def apply_filters (records : List Record) (filters : Filters) : List Record :=
  records.filter fun r => matchesFilters r filters

/-- get_sheet_rows (identical logic in both services): materialize all
records, filter when a query is present and non-empty (Python truthiness
of options.query), then slice [offset, offset + limit). -/
def get_sheet_rows (ws : Worksheet) (options : SheetGetRowsOptions) : List Record :=
  let allRecords := getAllRecords ws
  let filtered :=
    match options.query with
    | some q => if q = [] then allRecords else apply_filters allRecords q
    | none => allRecords
  pySlice filtered options.offset (options.offset + options.limit)

/-- create_row (both services): build one row in header order with
data.get(header, ""), append it, then return the last record of a fresh
full read (the app service returns {} when the fresh read is empty). -/
def create_row (ws : Worksheet) (data : Record) : Worksheet × Record :=
  let headers := rowValues1 ws
  let rowData := headers.map fun h => (data.lookup h).getD (.str "")
  let ws1 : Worksheet := { ws with rows := ws.rows ++ [rowData] }
  let allRecords := getAllRecords ws1
  (ws1, (allRecords.getLast?).getD [])

/-- create_rows_bulk (app service): build one row per mapping in header
order and append all rows in one batch; returns len(data). -/
def create_rows_bulk (ws : Worksheet) (data : List Record) : Worksheet × Nat :=
  let headers := rowValues1 ws
  let rowsData := data.map fun d => headers.map fun h => (d.lookup h).getD (.str "")
  ({ ws with rows := ws.rows ++ rowsData }, data.length)

/-- The write instructions of the bulk-update loop, the i-th mapping
targeting physical row startRowId + i + 2 (aux index i starts at 0). -/
def bulkUpdatePlanAux (headers : List String) (startRowId : Int) :
    Nat → List Record → List CellWrite
  | _, [] => []
  | i, d :: ds =>
    planRowWrites headers (startRowId + i + 2) d
      ++ bulkUpdatePlanAux headers startRowId (i + 1) ds

/-- All write instructions of update_rows_bulk for the given input. -/
def bulkUpdatePlan (headers : List String) (startRowId : Int) (data : List Record) :
    List CellWrite :=
  bulkUpdatePlanAux headers startRowId 0 data

namespace AppService

/-- get_sheet of the app service: try numeric id, then positional index
(both only when int(sheet_id) parses), then exact title; the outer
handler turns exhaustion into HTTPException(404) whose detail embeds the
original token. -/
def get_sheet (doc : Document) (sheetId : String) : Except HTTPError Worksheet :=
  let step12 : Option Worksheet :=
    match pyParseInt sheetId with
    | some n =>
      match doc.byId n with
      | some ws => some ws
      | none => doc.byIndex n
    | none => none
  match step12 with
  | some ws => .ok ws
  | none =>
    match doc.byTitle sheetId with
    | some ws => .ok ws
    | none => .error ⟨404, "Sheet '" ++ sheetId ++ "' not found: worksheet not found"⟩

/-- get_row of the app service: 404 when row_id >= len(all_records) or
row_id < 0, else all_records[row_id] (the unreachable index failure of
the surrounding try maps to a 500). -/
def get_row (ws : Worksheet) (rowId : Int) : Except HTTPError Record :=
  let allRecords := getAllRecords ws
  if rowId ≥ (allRecords.length : Int) ∨ rowId < 0 then .error (rowNotFoundError rowId)
  else
    match pyIndex allRecords rowId with
    | some r => .ok r
    | none => .error ⟨500, "Error retrieving row: list index out of range"⟩

/-- update_row of the app service: fresh full read, bounds check on
[0, count), write each matching header cell of physical row row_id + 2,
then return a fresh get_row (read-after-write).  The pair carries the
post-write worksheet state alongside the response record. -/
def update_row (ws : Worksheet) (rowId : Int) (data : Record) :
    Except HTTPError (Worksheet × Record) :=
  let allRecords := getAllRecords ws
  if rowId ≥ (allRecords.length : Int) ∨ rowId < 0 then .error (rowNotFoundError rowId)
  else
    match applyWrites ws (planRowWrites (rowValues1 ws) (rowId + 2) data) with
    | none => .error ⟨500, "Error updating row: write rejected"⟩
    | some ws1 =>
      match get_row ws1 rowId with
      | .ok r => .ok (ws1, r)
      | .error e => .error e

/-- update_rows_bulk of the app service: write every mapping's matching
header cells, the i-th mapping at physical row row_id + i + 2, with no
bounds check against the current record count; returns len(data). -/
def update_rows_bulk (ws : Worksheet) (startRowId : Int) (data : List Record) :
    Except HTTPError (Worksheet × Nat) :=
  match applyWrites ws (bulkUpdatePlan (rowValues1 ws) startRowId data) with
  | some ws1 => .ok (ws1, data.length)
  | none => .error ⟨500, "Error updating rows in bulk: write rejected"⟩

/-- The bulk endpoints' response model (app.models.BulkOperationResponse). -/
structure BulkOperationResponse where
  message : String
  affectedRows : Nat
  success : Bool
deriving DecidableEq, Repr

/-- PUT .../{row_id}/bulk (app.api.sheets.update_rows_bulk): wraps the
service count into the response. -/
def api_update_rows_bulk (ws : Worksheet) (rowId : Int) (body : List Record) :
    Except HTTPError (Worksheet × BulkOperationResponse) :=
  match update_rows_bulk ws rowId body with
  | .ok (ws1, n) =>
    .ok (ws1, ⟨"Successfully updated " ++ toString n ++ " rows", n, true⟩)
  | .error e => .error e

/-- POST .../bulk (app.api.sheets.create_rows_bulk): wraps the service
count into the response. -/
def api_create_rows_bulk (ws : Worksheet) (body : List Record) :
    Worksheet × BulkOperationResponse :=
  let p := create_rows_bulk ws body
  (p.1, ⟨"Successfully created " ++ toString p.2 ++ " rows", p.2, true⟩)

end AppService

namespace LegacyService

/-- get_sheet of the legacy service: same three-step resolution; the
detail string format differs but still embeds the token. -/
def get_sheet (doc : Document) (sheetId : String) : Except HTTPError Worksheet :=
  let step12 : Option Worksheet :=
    match pyParseInt sheetId with
    | some n =>
      match doc.byId n with
      | some ws => some ws
      | none => doc.byIndex n
    | none => none
  match step12 with
  | some ws => .ok ws
  | none =>
    match doc.byTitle sheetId with
    | some ws => .ok ws
    | none => .error ⟨404, "Sheet not found \"" ++ sheetId ++ "\": worksheet not found"⟩

/-- get_row of the legacy service: 404 only when
row_id >= len(all_records); otherwise Python indexing, so a negative
index reads from the end and a too-negative one raises (500). -/
def get_row (ws : Worksheet) (rowId : Int) : Except HTTPError Record :=
  let allRecords := getAllRecords ws
  if rowId ≥ (allRecords.length : Int) then .error (rowNotFoundError rowId)
  else
    match pyIndex allRecords rowId with
    | some r => .ok r
    | none => .error ⟨500, "Error retrieving row: list index out of range"⟩

/-- update_row of the legacy service: bounds check only against the upper
bound (no row_id < 0 test), then writes at physical row row_id + 2 and a
fresh get_row. -/
def update_row (ws : Worksheet) (rowId : Int) (data : Record) :
    Except HTTPError (Worksheet × Record) :=
  let allRecords := getAllRecords ws
  if rowId ≥ (allRecords.length : Int) then .error (rowNotFoundError rowId)
  else
    match applyWrites ws (planRowWrites (rowValues1 ws) (rowId + 2) data) with
    | none => .error ⟨500, "Error updating row: write rejected"⟩
    | some ws1 =>
      match get_row ws1 rowId with
      | .ok r => .ok (ws1, r)
      | .error e => .error e

end LegacyService

/-- The three-strategy resolution chain shared by both get_sheet
implementations: numeric id, then positional index (both only when the
token parses as an integer), then exact title; none when every strategy
fails. -/
def resolveChain (doc : Document) (t : String) : Option Worksheet :=
  match pyParseInt t with
  | some n =>
    match doc.byId n with
    | some ws => some ws
    | none =>
      match doc.byIndex n with
      | some ws => some ws
      | none => doc.byTitle t
  | none => doc.byTitle t

/-- The record list obtained by filtering the full materialized set, the
reference point of the pagination claim. -/
def filteredRecords (ws : Worksheet) (query : Option Filters) : List Record :=
  match query with
  | some q => apply_filters (getAllRecords ws) q
  | none => getAllRecords ws

/-- A two-row demo worksheet (headers name, age). -/
def demoWs : Worksheet :=
  ⟨["name", "age"], [[Value.str "A", Value.int 1], [Value.str "B", Value.int 2]]⟩

/-- A one-row worksheet used by the counterexamples. -/
def cexWs : Worksheet :=
  ⟨["name", "age"], [[Value.str "A", Value.int 1]]⟩

/-- A demo document: sheet id 7 resolves, index 0 resolves, title "Data"
resolves. -/
def demoDoc : Document :=
  ⟨fun n => if n = 7 then some demoWs else none,
   fun n => if n = 0 then some cexWs else none,
   fun s => if s = "Data" then some demoWs else none⟩

theorem matchesFilters_iff (r : Record) :
    ∀ fs : Filters, matchesFilters r fs = true ↔ ∀ kv ∈ fs, (recordGet r kv.1).toStr = kv.2 := by
  intro fs
  induction fs with
  | nil => simp [matchesFilters]
  | cons kv rest ih =>
    obtain ⟨k, v⟩ := kv
    rw [matchesFilters]
    by_cases h : (recordGet r k).toStr = v
    · rw [if_neg (not_not_intro h), ih]
      constructor
      · intro hall kv hkv
        rcases List.mem_cons.mp hkv with rfl | hkv1
        · exact h
        · exact hall kv hkv1
      · intro hall kv hkv
        exact hall kv (List.mem_cons_of_mem _ hkv)
    · rw [if_pos h]
      constructor
      · intro hfalse
        exact absurd hfalse (by simp)
      · intro hall
        exact absurd (hall (k, v) (List.mem_cons_self _ _)) h

/-- C3: a record matches a filter set iff for every filter key the
stringified record value (the empty string when the key is absent) is
exactly equal to the stringified expected value — no substring,
case-insensitive or coercive matching; concretely, the filter status = 1
rejects a record whose status is the empty string, accepts one whose
status is the integer 1, and a missing key compares as the empty string. -/
theorem filter_matching_exact (r : Record) (fs : Filters) :
    (matchesFilters r fs = true ↔ ∀ kv ∈ fs, (recordGet r kv.1).toStr = kv.2)
  ∧ matchesFilters [("status", Value.str "")] [("status", "1")] = false
  ∧ matchesFilters [("status", Value.int 1)] [("status", "1")] = true
  ∧ matchesFilters [] [("status", "1")] = false
  ∧ matchesFilters [] [("status", "")] = true :=
  ⟨matchesFilters_iff r fs, by decide, by decide, by decide, by decide⟩

theorem filter_matching_exact_witness :
    matchesFilters [("status", Value.int 1), ("x", Value.str "y")] [("status", "1")] = true :=
  (filter_matching_exact [("status", Value.int 1), ("x", Value.str "y")] [("status", "1")]).1.mpr
    (by decide)

/-- C9: filtering returns a sublist of its input record list — every
returned record is an element of the input, relative order is preserved,
and the records themselves pass through unmodified. -/
theorem apply_filters_sublist (records : List Record) (fs : Filters) :
    List.Sublist (apply_filters records fs) records :=
  List.filter_sublist records

theorem planRowWritesAux_length (rowNum : Int) (data : Record) :
    ∀ (hs : List String) (i : Nat),
      (planRowWritesAux rowNum data i hs).length
        = (hs.filter fun h => (data.lookup h).isSome).length := by
  intro hs
  induction hs with
  | nil => intro i; rfl
  | cons h hs ih =>
    intro i
    rw [planRowWritesAux, List.filter_cons]
    cases hl : data.lookup h with
    | some v => simp [hl, ih]
    | none => simp [hl, ih]

theorem planRowWritesAux_mem (rowNum : Int) (data : Record) :
    ∀ (hs : List String) (i : Nat) (w : CellWrite), w ∈ planRowWritesAux rowNum data i hs →
      ∃ j h, hs[j]? = some h ∧ w.row = rowNum ∧ w.col = i + j + 1
        ∧ data.lookup h = some w.value := by
  intro hs
  induction hs with
  | nil => intro i w hw; cases hw
  | cons h hs ih =>
    intro i w hw
    rw [planRowWritesAux] at hw
    cases hl : data.lookup h with
    | some v =>
      rw [hl] at hw
      rcases List.mem_cons.mp hw with rfl | hw1
      · exact ⟨0, h, by simp, rfl, rfl, hl⟩
      · obtain ⟨j, h1, hj, hr, hc, hv⟩ := ih (i + 1) w hw1
        refine ⟨j + 1, h1, by simpa using hj, hr, by omega, hv⟩
    | none =>
      rw [hl] at hw
      obtain ⟨j, h1, hj, hr, hc, hv⟩ := ih (i + 1) w hw
      refine ⟨j + 1, h1, by simpa using hj, hr, by omega, hv⟩

theorem planRowWritesAux_mem_of (rowNum : Int) (data : Record) :
    ∀ (hs : List String) (i j : Nat) (h : String) (v : Value),
      hs[j]? = some h → data.lookup h = some v →
      CellWrite.mk rowNum (i + j + 1) v ∈ planRowWritesAux rowNum data i hs := by
  intro hs
  induction hs with
  | nil => intro i j h v hj _; simp at hj
  | cons h0 hs ih =>
    intro i j h v hj hv
    cases j with
    | zero =>
      rw [List.getElem?_cons_zero, Option.some_inj] at hj
      subst hj
      rw [planRowWritesAux, hv]
      exact List.mem_cons_self _ _
    | succ j =>
      rw [List.getElem?_cons_succ] at hj
      have hmem := ih (i + 1) j h v hj hv
      have harith : i + 1 + j + 1 = i + (j + 1) + 1 := by omega
      rw [harith] at hmem
      rw [planRowWritesAux]
      cases hl : data.lookup h0 with
      | some v0 => exact List.mem_cons_of_mem _ hmem
      | none => exact hmem

theorem planRowWrites_mem (headers : List String) (rowNum : Int) (data : Record) :
    ∀ w ∈ planRowWrites headers rowNum data,
      ∃ j h, headers[j]? = some h ∧ w.row = rowNum ∧ w.col = j + 1
        ∧ data.lookup h = some w.value := by
  intro w hw
  obtain ⟨j, h, hj, hr, hc, hv⟩ := planRowWritesAux_mem rowNum data headers 0 w hw
  exact ⟨j, h, hj, hr, by omega, hv⟩

theorem planRowWrites_mem_of (headers : List String) (rowNum : Int) (data : Record)
    (j : Nat) (h : String) (v : Value) (hj : headers[j]? = some h)
    (hv : data.lookup h = some v) :
    CellWrite.mk rowNum (j + 1) v ∈ planRowWrites headers rowNum data := by
  have := planRowWritesAux_mem_of rowNum data headers 0 j h v hj hv
  simpa using this

/-- C5 counterexample: with the duplicate header row a, a and the update
mapping a = x, the emitted write set has two instructions (not one per
update key) and the second, duplicate column receives a write (not only
the first column bearing the name). -/
theorem plan_writes_duplicate_headers :
    planRowWrites ["a", "a"] 2 [("a", Value.str "x")]
        = [⟨2, 1, Value.str "x"⟩, ⟨2, 2, Value.str "x"⟩]
  ∧ CellWrite.mk 2 2 (Value.str "x") ∈ planRowWrites ["a", "a"] 2 [("a", Value.str "x")]
  ∧ (planRowWrites ["a", "a"] 2 [("a", Value.str "x")]).length = 2 :=
  ⟨rfl, by decide, rfl⟩

/-- C5 (amended): the write set of a row update has exactly one
instruction per header position whose name is a key of the update
mapping — so when a header name occurs more than once, every column
bearing that name receives a write, not only the first; keys absent from
the headers are silently dropped (every instruction targets a header
position that holds a key of the mapping), and an update mapping with
zero matching keys yields zero write instructions. -/
theorem plan_writes_per_matching_position (headers : List String) (rowNum : Int)
    (data : Record) :
    ((∀ h ∈ headers, data.lookup h = none) → planRowWrites headers rowNum data = [])
  ∧ (planRowWrites headers rowNum data).length
      = (headers.filter fun h => (data.lookup h).isSome).length
  ∧ (∀ w ∈ planRowWrites headers rowNum data,
      ∃ j h, headers[j]? = some h ∧ w.col = j + 1 ∧ data.lookup h = some w.value)
  ∧ (∀ j h v, headers[j]? = some h → data.lookup h = some v →
      CellWrite.mk rowNum (j + 1) v ∈ planRowWrites headers rowNum data) := by
  refine ⟨?_, planRowWritesAux_length rowNum data headers 0, ?_, ?_⟩
  · intro hnone
    have hlen := planRowWritesAux_length rowNum data headers 0
    have hfil : (headers.filter fun h => (data.lookup h).isSome) = [] := by
      rw [List.filter_eq_nil_iff]
      intro h hh
      rw [hnone h hh]
      simp
    rw [hfil] at hlen
    exact List.eq_nil_of_length_eq_zero hlen
  · intro w hw
    obtain ⟨j, h, hj, _, hc, hv⟩ := planRowWrites_mem headers rowNum data w hw
    exact ⟨j, h, hj, hc, hv⟩
  · intro j h v hj hv
    exact planRowWrites_mem_of headers rowNum data j h v hj hv

theorem plan_writes_per_matching_position_witness :
    CellWrite.mk 2 2 (Value.str "30") ∈ planRowWrites ["name", "age"] 2 [("age", Value.str "30")] :=
  (plan_writes_per_matching_position ["name", "age"] 2 [("age", Value.str "30")]).2.2.2 1 "age"
    (Value.str "30") (by decide) (by decide)

theorem bulkUpdatePlanAux_mem_of (headers : List String) (startRowId : Int) :
    ∀ (ds : List Record) (i k : Nat) (rowData : Record) (w : CellWrite),
      ds[k]? = some rowData →
      w ∈ planRowWrites headers (startRowId + i + k + 2) rowData →
      w ∈ bulkUpdatePlanAux headers startRowId i ds := by
  intro ds
  induction ds with
  | nil => intro i k rowData w hk _; simp at hk
  | cons d ds ih =>
    intro i k rowData w hk hw
    cases k with
    | zero =>
      rw [List.getElem?_cons_zero, Option.some_inj] at hk
      subst hk
      rw [bulkUpdatePlanAux]
      apply List.mem_append_left
      have harith : startRowId + (i : Int) + (0 : Nat) + 2 = startRowId + i + 2 := by
        simp
      rw [harith] at hw
      exact hw
    | succ k =>
      rw [List.getElem?_cons_succ] at hk
      rw [bulkUpdatePlanAux]
      apply List.mem_append_right
      apply ih (i + 1) k rowData w hk
      have harith : startRowId + (i : Int) + ((k : Nat) + 1 : Nat) + 2
          = startRowId + ((i : Nat) + 1 : Nat) + (k : Nat) + 2 := by
        push_cast
        ring
      rw [harith] at hw
      exact hw

theorem bulkUpdatePlan_mem_of (headers : List String) (startRowId : Int)
    (data : List Record) (k : Nat) (rowData : Record) (w : CellWrite)
    (hk : data[k]? = some rowData)
    (hw : w ∈ planRowWrites headers (startRowId + k + 2) rowData) :
    w ∈ bulkUpdatePlan headers startRowId data := by
  apply bulkUpdatePlanAux_mem_of headers startRowId data 0 k rowData w hk
  have harith : startRowId + (0 : Nat) + (k : Nat) + 2 = startRowId + k + 2 := by simp
  rw [harith]
  exact hw

/-- C8: every write of a single-row update of logical index i targets
physical row i + 2; the k-th mapping of a bulk update starting at s
emits writes targeting physical row s + k + 2, all of which belong to
the bulk plan; the header at 0-based position j with a matching key is
written at physical column j + 1; and for a nonnegative logical index
all emitted physical coordinates are 1-based (row ≥ 1, column ≥ 1). -/
theorem physical_coordinates (headers : List String) (data rowData : Record)
    (datas : List Record) (i s : Int) (j k : Nat) (h : String) (v : Value) :
    (∀ w ∈ planRowWrites headers (i + 2) data, w.row = i + 2 ∧ 1 ≤ w.col)
  ∧ (headers[j]? = some h → data.lookup h = some v →
      CellWrite.mk (i + 2) (j + 1) v ∈ planRowWrites headers (i + 2) data)
  ∧ (datas[k]? = some rowData →
      ∀ w ∈ planRowWrites headers (s + k + 2) rowData,
        w.row = s + k + 2 ∧ w ∈ bulkUpdatePlan headers s datas)
  ∧ (0 ≤ i → ∀ w ∈ planRowWrites headers (i + 2) data, 1 ≤ w.row ∧ 1 ≤ w.col) := by
  refine ⟨?_, ?_, ?_, ?_⟩
  · intro w hw
    obtain ⟨_, _, _, hr, hc, _⟩ := planRowWrites_mem headers (i + 2) data w hw
    exact ⟨hr, by omega⟩
  · intro hj hv
    exact planRowWrites_mem_of headers (i + 2) data j h v hj hv
  · intro hk w hw
    obtain ⟨_, _, _, hr, _, _⟩ := planRowWrites_mem headers (s + k + 2) rowData w hw
    exact ⟨hr, bulkUpdatePlan_mem_of headers s datas k rowData w hk hw⟩
  · intro hi w hw
    obtain ⟨_, _, _, hr, hc, _⟩ := planRowWrites_mem headers (i + 2) data w hw
    constructor
    · omega
    · omega

theorem physical_coordinates_witness :
    CellWrite.mk (1 + 2) (1 + 1) (Value.str "30")
      ∈ planRowWrites ["name", "age"] (1 + 2) [("age", Value.str "30")] :=
  (physical_coordinates ["name", "age"] [("age", Value.str "30")] [] [] 1 0 1 0 "age"
    (Value.str "30")).2.1 (by decide) (by decide)

theorem apply_filters_nil_filters (records : List Record) :
    apply_filters records [] = records := by
  have : ∀ r : Record, matchesFilters r [] = true := fun r => rfl
  simp [apply_filters, this]

theorem take_min_length (l : List α) (n : Nat) : l.take (min n l.length) = l.take n := by
  rcases le_total n l.length with h | h
  · rw [min_eq_left h]
  · rw [min_eq_right h, List.take_length, List.take_of_length_le h]

theorem drop_min_length (l : List α) (n : Nat) : l.drop (min n l.length) = l.drop n := by
  rcases le_total n l.length with h | h
  · rw [min_eq_left h]
  · rw [min_eq_right h, List.drop_length, List.drop_of_length_le h]

theorem pySlice_nonneg (l : List α) (a b : Int) (ha : 0 ≤ a) (hb : 0 ≤ b) :
    pySlice l a (a + b) = (l.drop a.toNat).take b.toNat := by
  simp only [pySlice, pySliceBound]
  rw [if_neg (show ¬a + b < 0 by omega), if_neg (show ¬a < 0 by omega)]
  have h1 : (a + b).toNat = a.toNat + b.toNat := by omega
  rw [h1, take_min_length, List.drop_take, drop_min_length]
  rcases le_total a.toNat l.length with h | h
  · rw [min_eq_left h]
    congr 1
    omega
  · rw [min_eq_right h, List.drop_of_length_le h, List.take_nil, List.take_nil]

/-- C2: the row listing applies the filter first, over the entire record
set, then returns exactly the slice [offset, offset + limit) of the
filtered sequence; in particular an offset at or beyond the filtered
length yields the empty sequence, not an error. -/
theorem get_sheet_rows_filter_then_paginate (ws : Worksheet) (query : Option Filters)
    (offset limit : Int) (hoff : 0 ≤ offset) (hlo : 1 ≤ limit) (hhi : limit ≤ 1000) :
    get_sheet_rows ws ⟨offset, limit, query⟩
        = ((filteredRecords ws query).drop offset.toNat).take limit.toNat
  ∧ (((filteredRecords ws query).length : Int) ≤ offset →
      get_sheet_rows ws ⟨offset, limit, query⟩ = []) := by
  have hmain : get_sheet_rows ws ⟨offset, limit, query⟩
      = ((filteredRecords ws query).drop offset.toNat).take limit.toNat := by
    rcases query with _ | q
    · exact pySlice_nonneg (getAllRecords ws) offset limit hoff (by omega)
    · have hred : get_sheet_rows ws ⟨offset, limit, some q⟩
          = pySlice (if q = [] then getAllRecords ws else apply_filters (getAllRecords ws) q)
              offset (offset + limit) := rfl
      have hfr : filteredRecords ws (some q) = apply_filters (getAllRecords ws) q := rfl
      by_cases hq : q = []
      · subst hq
        rw [hred, if_pos rfl, hfr, apply_filters_nil_filters]
        exact pySlice_nonneg _ _ _ hoff (by omega)
      · rw [hred, if_neg hq, hfr]
        exact pySlice_nonneg _ _ _ hoff (by omega)
  refine ⟨hmain, fun hlen => ?_⟩
  rw [hmain, List.drop_of_length_le (by omega), List.take_nil]

theorem get_sheet_rows_filter_then_paginate_witness :
    get_sheet_rows demoWs ⟨1, 1, none⟩
      = ((filteredRecords demoWs none).drop 1).take 1 :=
  (get_sheet_rows_filter_then_paginate demoWs none 1 1 (by decide) (by decide) (by decide)).1

theorem padTo_of_le (l : List α) (n : Nat) (pad : α) (h : n ≤ l.length) :
    padTo l n pad = l := by
  simp [padTo, Nat.sub_eq_zero_of_le h]

theorem lookup_zip_map (f : String → Value) :
    ∀ (headers : List String) (h : String), h ∈ headers →
      (headers.zip (headers.map f)).lookup h = some (f h) := by
  intro headers
  induction headers with
  | nil => intro h hh; cases hh
  | cons h0 hs ih =>
    intro h hh
    rw [List.map_cons, List.zip_cons_cons]
    rcases eq_or_ne h h0 with rfl | hne
    · exact List.lookup_cons_self
    · rw [List.lookup_cons]
      have hbeq : (h == h0) = false := beq_eq_false_iff_ne.mpr hne
      rw [hbeq]
      exact ih h ((List.mem_cons.mp hh).resolve_left hne)

/-- C6: create_row appends exactly one row, in header order, padding
every header key missing from the mapping with the empty string; it
returns the last record of a fresh post-append full read; and reading
the returned record back per header yields the empty string for omitted
columns and exactly the value provided for the rest. -/
theorem create_row_roundtrip (ws : Worksheet) (data : Record) :
    (create_row ws data).1
        = { ws with
            rows := ws.rows ++ [ws.headers.map fun h => (data.lookup h).getD (.str "")] }
  ∧ (getAllRecords (create_row ws data).1).getLast? = some (create_row ws data).2
  ∧ ∀ h ∈ ws.headers, recordGet (create_row ws data).2 h = (data.lookup h).getD (.str "") := by
  have hws1 : (create_row ws data).1
      = { ws with
          rows := ws.rows ++ [ws.headers.map fun h => (data.lookup h).getD (.str "")] } := rfl
  have hsnd : (create_row ws data).2
      = toRecord ws.headers (ws.headers.map fun h => (data.lookup h).getD (.str "")) := by
    rw [create_row]
    simp [getAllRecords, rowValues1, List.map_append, List.getLast?_concat]
  refine ⟨hws1, ?_, ?_⟩
  · rw [hws1, hsnd]
    simp [getAllRecords, List.map_append, List.getLast?_concat]
  · intro h hh
    rw [hsnd, toRecord, padTo_of_le _ _ _ (by rw [List.length_map]), recordGet,
      lookup_zip_map _ ws.headers h hh]

theorem create_row_roundtrip_witness :
    recordGet (create_row demoWs [("age", Value.str "30")]).2 "name" = Value.str "" :=
  ((create_row_roundtrip demoWs [("age", Value.str "30")]).2.2 "name" (by decide)).trans
    (by decide)

theorem padTo_length (l : List α) (n : Nat) (pad : α) :
    (padTo l n pad).length = max n l.length := by
  simp [padTo]
  omega

theorem updateCell_isSome (ws : Worksheet) (row : Int) (col : Nat) (v : Value)
    (hr : 1 ≤ row) (hc : 1 ≤ col) :
    ∃ ws1, ws.updateCell row col v = some ws1 := by
  rw [Worksheet.updateCell]
  by_cases h1 : row = 1
  · rw [if_pos h1, if_pos hc]
    exact ⟨_, rfl⟩
  · rw [if_neg h1, if_pos (by omega), if_pos hc]
    exact ⟨_, rfl⟩

theorem updateCell_rows_length_mono (ws : Worksheet) (row : Int) (col : Nat) (v : Value)
    (ws1 : Worksheet) (h : ws.updateCell row col v = some ws1) :
    ws.rows.length ≤ ws1.rows.length := by
  rw [Worksheet.updateCell] at h
  by_cases h1 : row = 1
  · rw [if_pos h1] at h
    by_cases hc : 1 ≤ col
    · rw [if_pos hc, Option.some_inj] at h
      rw [← h]
    · rw [if_neg hc] at h
      cases h
  · rw [if_neg h1] at h
    by_cases h2 : 2 ≤ row
    · rw [if_pos h2] at h
      by_cases hc : 1 ≤ col
      · rw [if_pos hc, Option.some_inj] at h
        rw [← h]
        simp only [List.length_set, padTo_length]
        omega
      · rw [if_neg hc] at h
        cases h
    · rw [if_neg h2] at h
      cases h

theorem updateCell_rows_length_eq (ws : Worksheet) (row : Int) (col : Nat) (v : Value)
    (ws1 : Worksheet) (h2 : 2 ≤ row) (hlt : (row - 2).toNat < ws.rows.length)
    (h : ws.updateCell row col v = some ws1) :
    ws1.rows.length = ws.rows.length := by
  rw [Worksheet.updateCell, if_neg (by omega), if_pos h2] at h
  by_cases hc : 1 ≤ col
  · rw [if_pos hc, Option.some_inj] at h
    rw [← h]
    simp only [List.length_set, padTo_length]
    omega
  · rw [if_neg hc] at h
    cases h

theorem applyWrites_isSome :
    ∀ (writes : List CellWrite) (ws : Worksheet),
      (∀ w ∈ writes, 1 ≤ w.row ∧ 1 ≤ w.col) →
      ∃ ws1, applyWrites ws writes = some ws1 := by
  intro writes
  induction writes with
  | nil => intro ws _; exact ⟨ws, rfl⟩
  | cons w rest ih =>
    intro ws hall
    obtain ⟨hr, hc⟩ := hall w (List.mem_cons_self _ _)
    obtain ⟨wsm, hm⟩ := updateCell_isSome ws w.row w.col w.value hr hc
    rw [applyWrites, hm]
    exact ih wsm fun w1 hw1 => hall w1 (List.mem_cons_of_mem _ hw1)

theorem applyWrites_rows_length_mono :
    ∀ (writes : List CellWrite) (ws ws1 : Worksheet),
      applyWrites ws writes = some ws1 → ws.rows.length ≤ ws1.rows.length := by
  intro writes
  induction writes with
  | nil =>
    intro ws ws1 h
    rw [applyWrites, Option.some_inj] at h
    rw [h]
  | cons w rest ih =>
    intro ws ws1 h
    rw [applyWrites] at h
    cases hm : ws.updateCell w.row w.col w.value with
    | none => rw [hm] at h; cases h
    | some wsm =>
      rw [hm] at h
      exact le_trans (updateCell_rows_length_mono ws w.row w.col w.value wsm hm) (ih wsm ws1 h)

theorem applyWrites_fixed_row (rowNum : Int) (h2 : 2 ≤ rowNum) :
    ∀ (writes : List CellWrite) (ws : Worksheet),
      (∀ w ∈ writes, w.row = rowNum ∧ 1 ≤ w.col) →
      (rowNum - 2).toNat < ws.rows.length →
      ∃ ws1, applyWrites ws writes = some ws1 ∧ ws1.rows.length = ws.rows.length := by
  intro writes
  induction writes with
  | nil => intro ws _ _; exact ⟨ws, rfl, rfl⟩
  | cons w rest ih =>
    intro ws hall hlt
    obtain ⟨hr, hc⟩ := hall w (List.mem_cons_self _ _)
    obtain ⟨wsm, hm⟩ := updateCell_isSome ws w.row w.col w.value (by omega) hc
    have hlen : wsm.rows.length = ws.rows.length := by
      apply updateCell_rows_length_eq ws w.row w.col w.value wsm (by omega) _ hm
      rw [hr]
      exact hlt
    obtain ⟨ws1, h1, hlen1⟩ :=
      ih wsm (fun w1 hw1 => hall w1 (List.mem_cons_of_mem _ hw1)) (by omega)
    refine ⟨ws1, ?_, by omega⟩
    rw [applyWrites, hm]
    exact h1

theorem getAllRecords_length (ws : Worksheet) :
    (getAllRecords ws).length = ws.rows.length := by
  rw [getAllRecords, List.length_map]

theorem app_get_row_ok (ws : Worksheet) (rowId : Int)
    (h0 : 0 ≤ rowId) (hlt : rowId < ((getAllRecords ws).length : Int)) :
    ∃ r, AppService.get_row ws rowId = Except.ok r
      ∧ (getAllRecords ws)[rowId.toNat]? = some r := by
  rw [AppService.get_row]
  rw [if_neg (by omega)]
  have hsome : (getAllRecords ws)[rowId.toNat]? = some ((getAllRecords ws)[rowId.toNat]) :=
    List.getElem?_eq_getElem (by omega)
  rw [pyIndex, if_pos h0, hsome]
  exact ⟨_, rfl, rfl⟩

theorem planRowWrites_row_col (headers : List String) (rowNum : Int) (data : Record) :
    ∀ w ∈ planRowWrites headers rowNum data, w.row = rowNum ∧ 1 ≤ w.col := by
  intro w hw
  obtain ⟨_, _, _, hr, hc, _⟩ := planRowWrites_mem headers rowNum data w hw
  exact ⟨hr, by omega⟩

/-- C4 counterexample: on a one-row sheet the legacy update_row accepts
the out-of-range logical index -1 instead of failing with RowNotFound —
the missing lower-bound check lets it write physical row 1 (the header
row, renaming the column age to 30) and then return the last record via
Python negative indexing. -/
theorem legacy_update_row_accepts_negative_index :
    LegacyService.update_row cexWs (-1) [("age", Value.str "30")]
      = .ok (⟨["name", "30"], [[Value.str "A", Value.int 1]]⟩,
             [("name", Value.str "A"), ("30", Value.int 1)]) := rfl

/-- C4 (amended): the app-service update_row fails with RowNotFound
exactly when the logical index is outside [0, currentRecordCount) as
measured by a fresh read at the start, and for an in-range index it
succeeds, returning the record obtained by re-reading row i after the
writes (read-after-write, not an echo of the input); the legacy
update_row checks only the upper bound, failing with RowNotFound exactly
when the index is ≥ currentRecordCount, so negative indices are not
rejected. -/
theorem update_row_bounds_check (ws : Worksheet) (rowId : Int) (data : Record) :
    (AppService.update_row ws rowId data = .error (rowNotFoundError rowId)
      ↔ (rowId < 0 ∨ ((getAllRecords ws).length : Int) ≤ rowId))
  ∧ (0 ≤ rowId → rowId < ((getAllRecords ws).length : Int) →
      ∃ ws1 r, applyWrites ws (planRowWrites (rowValues1 ws) (rowId + 2) data) = some ws1
        ∧ AppService.get_row ws1 rowId = .ok r
        ∧ AppService.update_row ws rowId data = .ok (ws1, r))
  ∧ (LegacyService.update_row ws rowId data = .error (rowNotFoundError rowId)
      ↔ ((getAllRecords ws).length : Int) ≤ rowId) := by
  have hin : 0 ≤ rowId → rowId < ((getAllRecords ws).length : Int) →
      ∃ ws1 r, applyWrites ws (planRowWrites (rowValues1 ws) (rowId + 2) data) = some ws1
        ∧ AppService.get_row ws1 rowId = .ok r
        ∧ AppService.update_row ws rowId data = .ok (ws1, r) := by
    intro h0 hlt
    have hlen := getAllRecords_length ws
    obtain ⟨ws1, happ, hlen1⟩ :=
      applyWrites_fixed_row (rowId + 2) (by omega)
        (planRowWrites (rowValues1 ws) (rowId + 2) data) ws
        (planRowWrites_row_col (rowValues1 ws) (rowId + 2) data) (by omega)
    have hlt1 : rowId < ((getAllRecords ws1).length : Int) := by
      rw [getAllRecords_length]
      omega
    obtain ⟨r, hr, _⟩ := app_get_row_ok ws1 rowId h0 hlt1
    refine ⟨ws1, r, happ, hr, ?_⟩
    rw [AppService.update_row, if_neg (by omega), happ]
    have hred : (match AppService.get_row ws1 rowId with
        | Except.ok r => Except.ok (ws1, r)
        | Except.error e => Except.error e) = Except.ok (ws1, r) := by
      rw [hr]
    exact hred
  refine ⟨?_, hin, ?_⟩
  · constructor
    · intro he
      by_cases hcond : rowId < 0 ∨ ((getAllRecords ws).length : Int) ≤ rowId
      · exact hcond
      · obtain ⟨ws1, r, _, _, hok⟩ := hin (by omega) (by omega)
        rw [hok] at he
        cases he
    · intro hcond
      rw [AppService.update_row, if_pos (by omega)]
  · constructor
    · intro he
      by_cases hge : ((getAllRecords ws).length : Int) ≤ rowId
      · exact hge
      · exfalso
        rw [LegacyService.update_row, if_neg (by omega)] at he
        cases happ : applyWrites ws (planRowWrites (rowValues1 ws) (rowId + 2) data) with
        | none =>
          rw [happ] at he
          have h5 : (500 : Nat) = 404 := congrArg HTTPError.status (Except.error.inj he)
          exact absurd h5 (by decide)
        | some ws1 =>
          rw [happ] at he
          have he2 : (match LegacyService.get_row ws1 rowId with
              | Except.ok r => Except.ok (ws1, r)
              | Except.error e => Except.error e)
              = Except.error (rowNotFoundError rowId) := he
          have hlt1 : rowId < ((getAllRecords ws1).length : Int) := by
            have hmono := applyWrites_rows_length_mono _ ws ws1 happ
            have h1 := getAllRecords_length ws
            have h2 := getAllRecords_length ws1
            omega
          cases hgr : LegacyService.get_row ws1 rowId with
          | ok r =>
            rw [hgr] at he2
            simp at he2
          | error e =>
            rw [hgr] at he2
            simp only [Except.error.injEq] at he2
            rw [LegacyService.get_row, if_neg (by omega)] at hgr
            cases hpi : pyIndex (getAllRecords ws1) rowId with
            | some r1 =>
              rw [hpi] at hgr
              simp at hgr
            | none =>
              rw [hpi] at hgr
              simp only [Except.error.injEq] at hgr
              have h5 : (500 : Nat) = 404 := congrArg HTTPError.status (hgr.trans he2)
              exact absurd h5 (by decide)
    · intro hge
      rw [LegacyService.update_row, if_pos (by omega)]

theorem update_row_bounds_check_witness :
    AppService.update_row demoWs 5 [("age", Value.str "30")]
      = .error (rowNotFoundError 5) :=
  (update_row_bounds_check demoWs 5 [("age", Value.str "30")]).1.mpr (Or.inr (by decide))

theorem bulkUpdatePlanAux_bounds (headers : List String) (startRowId : Int)
    (hs : 0 ≤ startRowId) :
    ∀ (ds : List Record) (i : Nat) (w : CellWrite),
      w ∈ bulkUpdatePlanAux headers startRowId i ds → 1 ≤ w.row ∧ 1 ≤ w.col := by
  intro ds
  induction ds with
  | nil => intro i w hw; cases hw
  | cons d ds ih =>
    intro i w hw
    rw [bulkUpdatePlanAux] at hw
    rcases List.mem_append.mp hw with hw1 | hw1
    · obtain ⟨hr, hc⟩ := planRowWrites_row_col headers (startRowId + i + 2) d w hw1
      constructor
      · rw [hr]
        have : (0 : Int) ≤ (i : Int) := Int.natCast_nonneg i
        omega
      · exact hc
    · exact ih (i + 1) w hw1

/-- C7: bulk update applies the write instructions of all n input
mappings — the k-th mapping's writes, targeting logical row start + k,
are all part of the submitted plan — with no existence check of any
target row against the current record count (it succeeds for every
worksheet state), and both bulk update and bulk create report
affectedRows equal to n, the input length, regardless of the store's
row count. -/
theorem bulk_operations_affected_rows (ws : Worksheet) (startRowId : Int)
    (data : List Record) (hs : 0 ≤ startRowId) :
    (∃ ws1, AppService.update_rows_bulk ws startRowId data = .ok (ws1, data.length))
  ∧ (∀ (k : Nat) (rowData : Record), data[k]? = some rowData →
      ∀ w ∈ planRowWrites (rowValues1 ws) (startRowId + k + 2) rowData,
        w ∈ bulkUpdatePlan (rowValues1 ws) startRowId data)
  ∧ (create_rows_bulk ws data).2 = data.length
  ∧ (∃ ws1 resp, AppService.api_update_rows_bulk ws startRowId data = .ok (ws1, resp)
      ∧ resp.affectedRows = data.length)
  ∧ (AppService.api_create_rows_bulk ws data).2.affectedRows = data.length := by
  obtain ⟨ws1, happ⟩ :=
    applyWrites_isSome (bulkUpdatePlan (rowValues1 ws) startRowId data) ws
      (fun w hw => bulkUpdatePlanAux_bounds (rowValues1 ws) startRowId hs data 0 w hw)
  have hbulk : AppService.update_rows_bulk ws startRowId data = .ok (ws1, data.length) := by
    rw [AppService.update_rows_bulk, happ]
  refine ⟨⟨ws1, hbulk⟩, ?_, rfl, ?_, rfl⟩
  · intro k rowData hk w hw
    exact bulkUpdatePlan_mem_of (rowValues1 ws) startRowId data k rowData w hk hw
  · refine ⟨ws1, ⟨"Successfully updated " ++ toString data.length ++ " rows",
        data.length, true⟩, ?_, rfl⟩
    rw [AppService.api_update_rows_bulk, hbulk]

theorem bulk_operations_affected_rows_witness :
    ∃ ws1, AppService.update_rows_bulk demoWs 0 [[("age", Value.str "9")]] = .ok (ws1, 1) :=
  (bulk_operations_affected_rows demoWs 0 [[("age", Value.str "9")]] (by decide)).1

/-- C10 counterexample: at logical index -1 on a one-row sheet the app
service get_row fails with RowNotFound while the legacy get_row returns
the last record (Python negative indexing), so the two implementations
are not extensionally equal. -/
theorem get_row_implementations_differ :
    AppService.get_row cexWs (-1) = .error (rowNotFoundError (-1))
  ∧ LegacyService.get_row cexWs (-1) = .ok [("name", Value.str "A"), ("age", Value.int 1)]
  ∧ AppService.get_row cexWs (-1) ≠ LegacyService.get_row cexWs (-1) := by
  refine ⟨rfl, rfl, ?_⟩
  intro hcontra
  have h2 : (Except.error (rowNotFoundError (-1)) : Except HTTPError Record)
      = Except.ok [("name", Value.str "A"), ("age", Value.int 1)] := hcontra
  exact Except.noConfusion h2

/-- C10 (amended): the two single-row read implementations agree on
every worksheet state and every nonnegative row index — the same record
on success and the same RowNotFound error out of range; they differ only
on negative indices. -/
theorem get_row_agree_on_nonneg (ws : Worksheet) (rowId : Int) (h : 0 ≤ rowId) :
    AppService.get_row ws rowId = LegacyService.get_row ws rowId := by
  rw [AppService.get_row, LegacyService.get_row]
  by_cases hge : rowId ≥ ((getAllRecords ws).length : Int)
  · rw [if_pos (Or.inl hge), if_pos hge]
  · rw [if_neg (by omega), if_neg hge]

theorem get_row_agree_on_nonneg_witness :
    AppService.get_row cexWs 0 = LegacyService.get_row cexWs 0 :=
  get_row_agree_on_nonneg cexWs 0 (by decide)

theorem app_get_sheet_eq_resolve (doc : Document) (t : String) :
    AppService.get_sheet doc t
      = match resolveChain doc t with
        | some ws => .ok ws
        | none => .error ⟨404, "Sheet '" ++ t ++ "' not found: worksheet not found"⟩ := by
  cases hp : pyParseInt t with
  | none =>
    cases hti : doc.byTitle t with
    | some ws => simp [AppService.get_sheet, resolveChain, hp, hti]
    | none => simp [AppService.get_sheet, resolveChain, hp, hti]
  | some n =>
    cases hid : doc.byId n with
    | some ws => simp [AppService.get_sheet, resolveChain, hp, hid]
    | none =>
      cases hix : doc.byIndex n with
      | some ws => simp [AppService.get_sheet, resolveChain, hp, hid, hix]
      | none =>
        cases hti : doc.byTitle t with
        | some ws => simp [AppService.get_sheet, resolveChain, hp, hid, hix, hti]
        | none => simp [AppService.get_sheet, resolveChain, hp, hid, hix, hti]

theorem legacy_get_sheet_eq_resolve (doc : Document) (t : String) :
    LegacyService.get_sheet doc t
      = match resolveChain doc t with
        | some ws => .ok ws
        | none => .error ⟨404, "Sheet not found \"" ++ t ++ "\": worksheet not found"⟩ := by
  cases hp : pyParseInt t with
  | none =>
    cases hti : doc.byTitle t with
    | some ws => simp [LegacyService.get_sheet, resolveChain, hp, hti]
    | none => simp [LegacyService.get_sheet, resolveChain, hp, hti]
  | some n =>
    cases hid : doc.byId n with
    | some ws => simp [LegacyService.get_sheet, resolveChain, hp, hid]
    | none =>
      cases hix : doc.byIndex n with
      | some ws => simp [LegacyService.get_sheet, resolveChain, hp, hid, hix]
      | none =>
        cases hti : doc.byTitle t with
        | some ws => simp [LegacyService.get_sheet, resolveChain, hp, hid, hix, hti]
        | none => simp [LegacyService.get_sheet, resolveChain, hp, hid, hix, hti]

theorem resolveChain_none_iff (doc : Document) (t : String) :
    resolveChain doc t = none
      ↔ doc.byTitle t = none
        ∧ ∀ n, pyParseInt t = some n → doc.byId n = none ∧ doc.byIndex n = none := by
  cases hp : pyParseInt t with
  | none =>
    have hres : resolveChain doc t = doc.byTitle t := by simp [resolveChain, hp]
    rw [hres]
    constructor
    · intro h
      exact ⟨h, fun n hn => Option.noConfusion hn⟩
    · intro h
      exact h.1
  | some n =>
    cases hid : doc.byId n with
    | some ws =>
      have hres : resolveChain doc t = some ws := by simp [resolveChain, hp, hid]
      rw [hres]
      constructor
      · intro h
        exact Option.noConfusion h
      · rintro ⟨_, hall⟩
        have hA := (hall n rfl).1
        rw [hid] at hA
        exact Option.noConfusion hA
    | none =>
      cases hix : doc.byIndex n with
      | some ws =>
        have hres : resolveChain doc t = some ws := by simp [resolveChain, hp, hid, hix]
        rw [hres]
        constructor
        · intro h
          exact Option.noConfusion h
        · rintro ⟨_, hall⟩
          have hB := (hall n rfl).2
          rw [hix] at hB
          exact Option.noConfusion hB
      | none =>
        have hres : resolveChain doc t = doc.byTitle t := by
          simp [resolveChain, hp, hid, hix]
        rw [hres]
        constructor
        · intro h
          refine ⟨h, fun m hm => ?_⟩
          rw [Option.some_inj] at hm
          subst hm
          exact ⟨hid, hix⟩
        · intro h
          exact h.1

/-- C1: for every document and sheet token, resolution tries numeric-id
lookup, then positional-index lookup, then title lookup, in that fixed
order, returning the first strategy's result that succeeds; and it fails
— with a 404 whose detail message contains the original token — if and
only if all three strategies fail.  Proven for both service
implementations. -/
theorem get_sheet_tries_id_then_index_then_title (doc : Document) (t : String) :
    (∀ n ws, pyParseInt t = some n → doc.byId n = some ws →
      AppService.get_sheet doc t = .ok ws ∧ LegacyService.get_sheet doc t = .ok ws)
  ∧ (∀ n ws, pyParseInt t = some n → doc.byId n = none → doc.byIndex n = some ws →
      AppService.get_sheet doc t = .ok ws ∧ LegacyService.get_sheet doc t = .ok ws)
  ∧ (∀ ws, (∀ n, pyParseInt t = some n → doc.byId n = none ∧ doc.byIndex n = none) →
      doc.byTitle t = some ws →
      AppService.get_sheet doc t = .ok ws ∧ LegacyService.get_sheet doc t = .ok ws)
  ∧ ((∃ e, AppService.get_sheet doc t = .error e) ↔
      (doc.byTitle t = none
        ∧ ∀ n, pyParseInt t = some n → doc.byId n = none ∧ doc.byIndex n = none))
  ∧ ((∃ e, LegacyService.get_sheet doc t = .error e) ↔
      (doc.byTitle t = none
        ∧ ∀ n, pyParseInt t = some n → doc.byId n = none ∧ doc.byIndex n = none))
  ∧ (∀ e, AppService.get_sheet doc t = .error e →
      e.status = 404 ∧ ∃ pre post, e.detail = pre ++ t ++ post)
  ∧ (∀ e, LegacyService.get_sheet doc t = .error e →
      e.status = 404 ∧ ∃ pre post, e.detail = pre ++ t ++ post) := by
  have happ := app_get_sheet_eq_resolve doc t
  have hleg := legacy_get_sheet_eq_resolve doc t
  refine ⟨?_, ?_, ?_, ?_, ?_, ?_, ?_⟩
  · intro n ws hp hid
    have hres : resolveChain doc t = some ws := by simp [resolveChain, hp, hid]
    exact ⟨by simp [happ, hres], by simp [hleg, hres]⟩
  · intro n ws hp hid hix
    have hres : resolveChain doc t = some ws := by simp [resolveChain, hp, hid, hix]
    exact ⟨by simp [happ, hres], by simp [hleg, hres]⟩
  · intro ws hall hti
    have hres : resolveChain doc t = some ws := by
      cases hp : pyParseInt t with
      | none => simp [resolveChain, hp, hti]
      | some n =>
        obtain ⟨h1, h2⟩ := hall n hp
        simp [resolveChain, hp, h1, h2, hti]
    exact ⟨by simp [happ, hres], by simp [hleg, hres]⟩
  · constructor
    · rintro ⟨e, he⟩
      rw [happ] at he
      cases hres : resolveChain doc t with
      | some ws => rw [hres] at he; simp at he
      | none => exact (resolveChain_none_iff doc t).mp hres
    · intro hfail
      have hres := (resolveChain_none_iff doc t).mpr hfail
      exact ⟨⟨404, "Sheet '" ++ t ++ "' not found: worksheet not found"⟩,
        by simp [happ, hres]⟩
  · constructor
    · rintro ⟨e, he⟩
      rw [hleg] at he
      cases hres : resolveChain doc t with
      | some ws => rw [hres] at he; simp at he
      | none => exact (resolveChain_none_iff doc t).mp hres
    · intro hfail
      have hres := (resolveChain_none_iff doc t).mpr hfail
      exact ⟨⟨404, "Sheet not found \"" ++ t ++ "\": worksheet not found"⟩,
        by simp [hleg, hres]⟩
  · intro e he
    rw [happ] at he
    cases hres : resolveChain doc t with
    | some ws => rw [hres] at he; simp at he
    | none =>
      rw [hres] at he
      have he2 := Except.error.inj he
      rw [← he2]
      exact ⟨rfl, "Sheet '", "' not found: worksheet not found", rfl⟩
  · intro e he
    rw [hleg] at he
    cases hres : resolveChain doc t with
    | some ws => rw [hres] at he; simp at he
    | none =>
      rw [hres] at he
      have he2 := Except.error.inj he
      rw [← he2]
      exact ⟨rfl, "Sheet not found \"", "\": worksheet not found", rfl⟩

theorem get_sheet_tries_id_then_index_then_title_witness :
    AppService.get_sheet demoDoc "7" = .ok demoWs
  ∧ LegacyService.get_sheet demoDoc "7" = .ok demoWs :=
  (get_sheet_tries_id_then_index_then_title demoDoc "7").1 7 demoWs (by decide) (by decide)

end Sheetful
